import Mathlib

/-!
Verification of the agent_service dispatch/session layer.

Python strings are modelled as `List Char`.  `str.lower` is modelled as a
per-character map covering ASCII and the Vietnamese alphabet (the two
alphabets used by the keyword tables of the source); all other characters
are left unchanged.  Here `rstrip` and `strip` use the primary whitespace set of Python.
-/

/-- The primary whitespace characters of Python (`str.strip` default set). -/
def pyIsSpace (c : Char) : Bool :=
  c == ' ' || c == '\t' || c == '\n' || c == '\r' || c == '\x0b' || c == '\x0c'

/-- Lower-casing of one character, as `str.lower` acts on ASCII and on the
precomposed Vietnamese alphabet; other characters are unchanged. -/
def pyCharLower (c : Char) : Char :=
  if 'A' ≤ c ∧ c ≤ 'Z' then Char.ofNat (c.toNat + 32)
  else match c with
    | 'À' => 'à' | 'Á' => 'á' | 'Ả' => 'ả' | 'Ã' => 'ã' | 'Ạ' => 'ạ'
    | 'Ă' => 'ă' | 'Ằ' => 'ằ' | 'Ắ' => 'ắ' | 'Ẳ' => 'ẳ' | 'Ẵ' => 'ẵ' | 'Ặ' => 'ặ'
    | 'Â' => 'â' | 'Ầ' => 'ầ' | 'Ấ' => 'ấ' | 'Ẩ' => 'ẩ' | 'Ẫ' => 'ẫ' | 'Ậ' => 'ậ'
    | 'Đ' => 'đ'
    | 'È' => 'è' | 'É' => 'é' | 'Ẻ' => 'ẻ' | 'Ẽ' => 'ẽ' | 'Ẹ' => 'ẹ'
    | 'Ê' => 'ê' | 'Ề' => 'ề' | 'Ế' => 'ế' | 'Ể' => 'ể' | 'Ễ' => 'ễ' | 'Ệ' => 'ệ'
    | 'Ì' => 'ì' | 'Í' => 'í' | 'Ỉ' => 'ỉ' | 'Ĩ' => 'ĩ' | 'Ị' => 'ị'
    | 'Ò' => 'ò' | 'Ó' => 'ó' | 'Ỏ' => 'ỏ' | 'Õ' => 'õ' | 'Ọ' => 'ọ'
    | 'Ô' => 'ô' | 'Ồ' => 'ồ' | 'Ố' => 'ố' | 'Ổ' => 'ổ' | 'Ỗ' => 'ỗ' | 'Ộ' => 'ộ'
    | 'Ơ' => 'ơ' | 'Ờ' => 'ờ' | 'Ớ' => 'ớ' | 'Ở' => 'ở' | 'Ỡ' => 'ỡ' | 'Ợ' => 'ợ'
    | 'Ù' => 'ù' | 'Ú' => 'ú' | 'Ủ' => 'ủ' | 'Ũ' => 'ũ' | 'Ụ' => 'ụ'
    | 'Ư' => 'ư' | 'Ừ' => 'ừ' | 'Ứ' => 'ứ' | 'Ử' => 'ử' | 'Ữ' => 'ữ' | 'Ự' => 'ự'
    | 'Ỳ' => 'ỳ' | 'Ý' => 'ý' | 'Ỷ' => 'ỷ' | 'Ỹ' => 'ỹ' | 'Ỵ' => 'ỵ'
    | c => c

/-- Model of `str.lower` on a whole string. -/
def pyLower (s : List Char) : List Char := s.map pyCharLower

/-- Model of `str.rstrip()` — drop trailing whitespace. -/
def pyRstrip (s : List Char) : List Char := (s.reverse.dropWhile pyIsSpace).reverse

/-- Model of `str.lstrip()` — drop leading whitespace. -/
def pyLstrip (s : List Char) : List Char := s.dropWhile pyIsSpace

/-- Model of `str.strip()` — drop leading and trailing whitespace. -/
def pyStrip (s : List Char) : List Char := pyLstrip (pyRstrip s)

/-- Boolean test that `n` is a prefix of `l`. -/
def isPrefixB : List Char → List Char → Bool
  | [], _ => true
  | _ :: _, [] => false
  | a :: as, b :: bs => a == b && isPrefixB as bs

/-- Boolean substring test (`n in l` for Python strings). -/
def isSubB (n : List Char) : List Char → Bool
  | [] => n.isEmpty
  | c :: rest => isPrefixB n (c :: rest) || isSubB n rest

/-- Boolean suffix test (`str.endswith`). -/
def isSufB (n l : List Char) : Bool := isPrefixB n.reverse l.reverse

/-- Predicate: `n` occurs as a contiguous substring of `l`. -/
def SubL (n l : List Char) : Prop := ∃ u v, l = u ++ n ++ v

/-- Predicate: `n` is a suffix of `l`. -/
def SufL (n l : List Char) : Prop := ∃ u, l = u ++ n

/-- Scanner for `str.replace`, structurally recursive on a fuel argument
that the wrapper instantiates with the length of the string (the scan consumes at
least one character per step, so the fuel never runs out). -/
def pyReplaceF (pat repl : List Char) : Nat → List Char → List Char
  | 0, l => l
  | fuel + 1, l =>
    match l with
    | [] => []
    | c :: rest =>
      match pat with
      | [] => c :: rest
      | _ :: ps =>
        if isPrefixB pat (c :: rest) then
          repl ++ pyReplaceF pat repl fuel (rest.drop ps.length)
        else
          c :: pyReplaceF pat repl fuel rest

/-- Python `str.replace(pat, repl)` for a non-empty pattern: one
left-to-right pass replacing non-overlapping occurrences, resuming the scan
after each replaced occurrence.  (For `pat = []` Python interleaves `repl`;
the source only ever uses non-empty patterns, for which that branch is
unreachable and returns the string unchanged.) -/
def pyReplace (pat repl l : List Char) : List Char :=
  pyReplaceF pat repl l.length l

/- ### Round bounds (claim C1)

`chat_controller.chat_endpoint` line 462: `effective_max_rounds = min(payload.max_rounds, 10)`.
`chat_controller._run_group_chat` line 440: `effective_max_rounds = min(max_rounds, 6)`,
handed to `initiate_chat` as `max_turns`.
`chat_service.run_chat` lines 124-125:
`max_chat_rounds = int(os.getenv("MAX_CHAT_ROUNDS", "10"))`;
`effective_max_rounds = max(max_rounds, max_chat_rounds)`,
handed to `initiate_group_chat` as `max_rounds`. -/

/-- Round clamp of `chat_endpoint` before calling `_run_group_chat`. -/
def chat_endpoint_effective_max_rounds (maxRounds : Int) : Int := min maxRounds 10

/-- Round clamp of `_run_group_chat` handed to the engine (`max_turns`). -/
def run_group_chat_effective_max_rounds (maxRounds : Int) : Int := min maxRounds 6

/-- Round bound of `chat_service.run_chat` handed to `initiate_group_chat`;
`maxChatRounds` is `int(os.getenv("MAX_CHAT_ROUNDS", "10"))`. -/
def run_chat_effective_max_rounds (maxRounds maxChatRounds : Int) : Int :=
  max maxRounds maxChatRounds

/- ### Keyword routing (`chat_controller._determine_best_agent`, claims C2, C9) -/

/-- Keyword profile of `Math_Expert` in `_determine_best_agent`. -/
def mathKeywords : List (List Char) :=
  [ "math".toList, "mathematics".toList, "algebra".toList, "geometry".toList,
    "calculus".toList, "statistics".toList, "equation".toList, "formula".toList,
    "derivative".toList, "integral".toList, "probability".toList, "solve".toList,
    "calculate".toList, "compute".toList, "tính".toList, "toán".toList,
    "phương trình".toList ]

/-- Keyword profile of `Physics_Expert`. -/
def physicsKeywords : List (List Char) :=
  [ "physics".toList, "force".toList, "energy".toList, "momentum".toList,
    "acceleration".toList, "velocity".toList, "electric".toList, "magnetic".toList,
    "wave".toList, "thermodynamics".toList, "quantum".toList, "vật lý".toList,
    "lực".toList, "năng lượng".toList, "gia tốc".toList, "vận tốc".toList ]

/-- Keyword profile of `Chemistry_Expert`. -/
def chemistryKeywords : List (List Char) :=
  [ "chemistry".toList, "chemical".toList, "reaction".toList, "molecule".toList,
    "atom".toList, "bond".toList, "organic".toList, "inorganic".toList,
    "stoichiometry".toList, "equilibrium".toList, "hóa học".toList,
    "phản ứng".toList, "phân tử".toList, "nguyên tử".toList ]

/-- Keyword profile of `Biology_Expert`. -/
def biologyKeywords : List (List Char) :=
  [ "biology".toList, "cell".toList, "genetic".toList, "dna".toList,
    "evolution".toList, "ecology".toList, "organism".toList, "protein".toList,
    "enzyme".toList, "photosynthesis".toList, "sinh học".toList, "tế bào".toList,
    "gen".toList, "tiến hóa".toList ]

/-- Keyword profile of `CS_Expert`. -/
def csKeywords : List (List Char) :=
  [ "programming".toList, "code".toList, "algorithm".toList, "data structure".toList,
    "software".toList, "python".toList, "java".toList, "javascript".toList,
    "database".toList, "network".toList, "computer".toList, "lập trình".toList,
    "thuật toán".toList, "cơ sở dữ liệu".toList ]

/-- Keyword profile of `English_Expert`. -/
def englishKeywords : List (List Char) :=
  [ "english".toList, "grammar".toList, "vocabulary".toList, "pronunciation".toList,
    "ielts".toList, "toefl".toList, "writing".toList, "speaking".toList,
    "listening".toList, "tiếng anh".toList, "ngữ pháp".toList ]

/-- Keyword profile of `Literature_Expert`. -/
def literatureKeywords : List (List Char) :=
  [ "literature".toList, "poem".toList, "novel".toList, "story".toList,
    "author".toList, "character".toList, "theme".toList, "analysis".toList,
    "văn học".toList, "thơ".toList, "tiểu thuyết".toList ]

/-- The `keywords_map` dict literal of `_determine_best_agent`, in its
declaration (= insertion) order. -/
def keywordsMap : List (String × List (List Char)) :=
  [ ("Math_Expert", mathKeywords),
    ("Physics_Expert", physicsKeywords),
    ("Chemistry_Expert", chemistryKeywords),
    ("Biology_Expert", biologyKeywords),
    ("CS_Expert", csKeywords),
    ("English_Expert", englishKeywords),
    ("Literature_Expert", literatureKeywords) ]

/-- Lookup modelling `agent.name in keywords_map` and `keywords_map[agent.name]`. -/
def lookupKw (name : String) : Option (List (List Char)) :=
  (keywordsMap.find? (fun p => p.1 == name)).map (fun p => p.2)

/-- Inner scoring loop: `score += 1` for each keyword contained (as a
substring) in the lower-cased message. -/
def scoreKw (kws : List (List Char)) (messageLower : List Char) : Nat :=
  kws.countP (fun k => isSubB k messageLower)

/-- The `agent_scores` dict, built by iterating `agents` in order and keeping
those whose name is in `keywords_map` (insertion order = `agents` order). -/
def agentScores (messageLower : List Char) (agents : List String) :
    List (String × Nat) :=
  agents.filterMap (fun a => (lookupKw a).map (fun kws => (a, scoreKw kws messageLower)))

/-- Model of `max(agent_scores, key=agent_scores.get)`: the first entry
attaining the maximal score (the `max` builtin keeps the earlier element on
ties). -/
def maxByFirst : List (String × Nat) → Option (String × Nat)
  | [] => none
  | x :: xs => some (xs.foldl (fun b y => if b.2 < y.2 then y else b) x)

/-- Model of `_determine_best_agent(message, agents)`; agent objects are modelled by
their names (every agent in the source lists has a `name`). -/
def determine_best_agent (message : List Char) (agents : List String) :
    Option String :=
  let messageLower := pyLower message
  match maxByFirst (agentScores messageLower agents) with
  | none => none
  | some (name, sc) =>
    if 0 < sc then agents.find? (fun a => a == name) else none

/-- Score of one named expert on a message (0 for names outside the map). -/
def expertScore (name : String) (message : List Char) : Nat :=
  scoreKw ((lookupKw name).getD []) (pyLower message)

/-- The agent list returned by `create_team`: `[info_agent, *subject_agents]`
with the subject agents in `EXPERT_DEFINITIONS` declaration order. -/
def defaultAgents : List String :=
  [ "Info_Agent", "CS_Expert", "Math_Expert", "English_Expert", "Biology_Expert",
    "Physics_Expert", "Chemistry_Expert", "Literature_Expert" ]

/-- The experts of the default roster that carry keyword profiles, in roster
declaration order. -/
def routedRoster : List String :=
  [ "CS_Expert", "Math_Expert", "English_Expert", "Biology_Expert",
    "Physics_Expert", "Chemistry_Expert", "Literature_Expert" ]

/-- The example message of the routing scenario. -/
def exampleMessage : List Char :=
  "Correct my English paragraph and explain grammar mistakes".toList

/- ### Message contents and termination predicates
(`chat_controller._run_group_chat.is_termination_msg`,
`team_builder.create_team.is_termination_msg`; claims C3, C10) -/

/-- A Python value found under the `content` key of a message.  Non-string values
are classified by the only traits the source inspects: truthiness, and the
fact that calling `.strip()` on them raises.  Here `rep` is the `str()`
rendering of the value. -/
inductive PyContent where
  | pstr (s : List Char)
  | pnone
  | pfalsy (rep : List Char)
  | ptruthy (rep : List Char)
deriving DecidableEq

/-- A chat message dict; `content = none` models a missing `content` key
(`msg.get("content", "")` then yields `""`). -/
structure PyMsg where
  content : Option PyContent
deriving DecidableEq

/-- Model of `str()` on a content value (`"None"` for `None`, identity for strings). -/
def pyStrOfContent : PyContent → List Char
  | .pstr s => s
  | .pnone => "None".toList
  | .pfalsy r => r
  | .ptruthy r => r

/-- Python truthiness of a content value. -/
def contentTruthy : PyContent → Bool
  | .pstr s => !s.isEmpty
  | .pnone => false
  | .pfalsy _ => false
  | .ptruthy _ => true

/-- The `is_termination_msg` closure defined inside `chat_controller._run_group_chat`:
right-strip, suffix check for the sentinels, then case-insensitive
substring check for the completion phrases; `False` for non-strings. -/
def ctrl_is_termination_msg (msg : PyMsg) : Bool :=
  match msg.content.getD (.pstr []) with
  | .pstr content =>
    let cs := pyRstrip content
    isSufB "TERMINATE".toList cs || isSufB "KẾT THÚC".toList cs ||
      isSubB "hoàn thành".toList (pyLower cs) || isSubB "completed".toList (pyLower cs)
  | _ => false

/-- The `is_termination_msg` closure defined inside `team_builder.create_team`
(identical checks, but on `content.strip()` instead of `rstrip`). -/
def tb_is_termination_msg (msg : PyMsg) : Bool :=
  match msg.content.getD (.pstr []) with
  | .pstr content =>
    let text := pyStrip content
    isSufB "TERMINATE".toList text || isSufB "KẾT THÚC".toList text ||
      isSubB "hoàn thành".toList (pyLower text) || isSubB "completed".toList (pyLower text)
  | _ => false

/-- The termination condition exactly as the claim words it: after trimming
trailing whitespace the text ends with a sentinel, or the lowercased text
contains a completion phrase. -/
def claim_termination (content : List Char) : Bool :=
  isSufB "TERMINATE".toList (pyRstrip content) ||
    isSufB "KẾT THÚC".toList (pyRstrip content) ||
    isSubB "hoàn thành".toList (pyLower content) ||
    isSubB "completed".toList (pyLower content)

/- ### Result extraction (`chat_service._extract_final_result`; claims C4, C5)
The inline extraction in `chat_controller.chat_endpoint` is line-for-line the
same algorithm (its `except` clause lists exactly the exception types the
`try` block can raise, so the behaviour coincides). -/

/-- One entry of `result.chat_history`: either a dict (with an optional
`content` value) or not a dict (skipped by the scan; `.get` on it raises). -/
inductive HistMsg where
  | dict (content : Option PyContent)
  | nondict
deriving DecidableEq

/-- The backward scan `for msg in reversed(result.chat_history)` (the input
here is already reversed).  Returns the first meaningful content, `none` if
the loop finishes without picking one, or an error when `.strip()` is
reached on a truthy non-string (the exception is caught by the caller). -/
def scanHistoryRev : List HistMsg → Except Unit (Option (List Char))
  | [] => .ok none
  | .dict c :: rest =>
    match c.getD (.pstr []) with
    | .pstr s =>
      if !s.isEmpty && !(isPrefixB "[".toList (pyStrip s)) &&
          decide (10 < (pyStrip s).length) then
        .ok (some s)
      else scanHistoryRev rest
    | .pnone => scanHistoryRev rest
    | .pfalsy _ => scanHistoryRev rest
    | .ptruthy _ => .error ()
  | .nondict :: rest => scanHistoryRev rest

/-- The whole `try` block over a (non-empty) `chat_history`, `rep` being
`str(result)` used when an exception is caught. -/
def historyExtract (h : List HistMsg) (rep : List Char) : List Char :=
  match scanHistoryRev h.reverse with
  | .error _ => rep
  | .ok (some s) => s
  | .ok none =>
    match h.getLast? with
    | some (.dict c) => pyStrOfContent (c.getD (.pstr []))
    | some .nondict => rep
    | none => rep

/-- An engine result: a plain string, or an object with optional `summary`
and `chat_history` attributes (`none` = attribute missing or `None`);
`rep` is `str(result)`. -/
inductive EngineResult where
  | str (s : List Char)
  | obj (summary : Option (List Char)) (chatHistory : Option (List HistMsg))
      (rep : List Char)
deriving DecidableEq

/-- The shape dispatch of `_extract_final_result` before cleanup. -/
def chooseText : EngineResult → List Char
  | .str s => s
  | .obj summary hist rep =>
    if (summary.getD []).isEmpty = false then summary.getD []
    else
      match hist with
      | some h => if h.isEmpty then rep else historyExtract h rep
      | none => rep

/-- The fixed localized fallback answer. -/
def fallback_message : List Char :=
  "Xin lỗi, tôi không thể xử lý yêu cầu này. Vui lòng thử lại với câu hỏi cụ thể hơn.".toList

/-- Cleanup `final_result.replace("TERMINATE", "").replace("KẾT THÚC", "").strip()`. -/
def cleaned_text (r : EngineResult) : List Char :=
  pyStrip (pyReplace "KẾT THÚC".toList [] (pyReplace "TERMINATE".toList [] (chooseText r)))

/-- Model of `_extract_final_result`: cleanup plus the minimal-length fallback. -/
def extract_final_result (r : EngineResult) : List Char :=
  let fr := cleaned_text r
  if (pyStrip fr).length < 5 then fallback_message else fr

/- ### Request boundary (`chat_controller.ChatRequest` / `chat_endpoint`; claim C6) -/

/-- A JSON value for a request field. -/
inductive JsonVal where
  | jstr (s : List Char)
  | jnum (n : Int)
  | jbool (b : Bool)
  | jnull
  | jarr
  | jobj
deriving DecidableEq

/-- Pydantic validation of `ChatRequest.message : str` (no further
constraints or validators are declared in the source): the field must be
present and be a string; any string, including the empty one, is accepted. -/
def validate_chat_request_message : Option JsonVal → Except Unit (List Char)
  | none => .error ()
  | some (.jstr s) => .ok s
  | some _ => .error ()

/-- The `chat_endpoint` body up to the engine call: no check on the message; it
unconditionally hands `payload.message` and the clamped round bound to
`_run_group_chat` / `initiate_chat`. -/
def chat_endpoint_engine_call (message : List Char) (maxRounds : Int) :
    List Char × Int :=
  (message,
    run_group_chat_effective_max_rounds (chat_endpoint_effective_max_rounds maxRounds))

/- ### Instruction updates (`personalization._set_system_message_text`,
`team_builder.create_team`; claim C7) -/

/-- Outcome of one call to `agent.update_system_message(...)`. -/
inductive CallOutcome where
  | ok
  | typeErr
  | otherErr
deriving DecidableEq

/-- The traits of an agent object that `_set_system_message_text` probes:
which update mechanisms exist and how each behaves when exercised. -/
structure AgentObj where
  hasUpdateEntry : Bool
  callWithText : CallOutcome
  callWithWrapped : CallOutcome
  hasInternalField : Bool
  internalFieldSetOk : Bool
  smHasContent : Bool
  contentSetOk : Bool
deriving DecidableEq

/-- Which mechanism ended up applying the update. -/
inductive UpdateMechanism where
  | entryText
  | entryWrapped
  | internalField
  | contentField
  | skipped
deriving DecidableEq

/-- Steps (2)–(4) of `_set_system_message_text`: try `_system_message`
assignment, then `system_message.content` assignment (each failure is
swallowed), else log and skip. -/
def set_system_message_fallback (a : AgentObj) : UpdateMechanism :=
  if a.hasInternalField && a.internalFieldSetOk then .internalField
  else if a.smHasContent && a.contentSetOk then .contentField
  else .skipped

/-- Model of `_set_system_message_text`: the structured entrypoint is tried first,
catching only `TypeError`; the wrapped-object retry catches everything; then
the field fallbacks.  `.error ()` models an exception escaping the routine. -/
def set_system_message_text (a : AgentObj) : Except Unit UpdateMechanism :=
  if a.hasUpdateEntry then
    match a.callWithText with
    | .ok => .ok .entryText
    | .otherErr => .error ()
    | .typeErr =>
      match a.callWithWrapped with
      | .ok => .ok .entryWrapped
      | _ => .ok (set_system_message_fallback a)
  else .ok (set_system_message_fallback a)

/-- The inline personalization chain of `team_builder.create_team`
(lines 344–355): both entrypoint attempts catch every exception and fall
back to a plain `agent.system_message` assignment. -/
def team_builder_apply_update (hasEntry : Bool)
    (callWithText callWithWrapped : CallOutcome) : UpdateMechanism :=
  if hasEntry then
    match callWithText with
    | .ok => .entryText
    | _ =>
      match callWithWrapped with
      | .ok => .entryWrapped
      | _ => .internalField
  else .internalField

/- ### First-turn vs resumed-turn speaker selection
(`chat_controller._run_group_chat`; claim C8) -/

/-- The pieces of `pattern.prepare_group_chat` / `manager.resume` that
`_run_group_chat` consumes.  History entries are modelled by their texts
(only the list length and the first element are inspected). -/
structure PreparedGroupChat where
  agents : List String
  processedMessages : List (List Char)
  prepLastAgent : Option String
  resumeLastAgent : Option String
  resumeLastMessage : List Char

/-- The speaker/clear-history resolution of `_run_group_chat`, up to the
`initiate_chat` call: returns the starting agent, the message it is started
with, and `clear_history`; the error is the `ValueError` raised when no
agent is available. -/
def run_group_chat_setup (message : List Char) (p : PreparedGroupChat) :
    Except String (String × List Char × Bool) :=
  let suggested := determine_best_agent message p.agents
  let lastAgent0 :=
    if suggested.isSome && decide (p.processedMessages.length ≤ 1) then suggested
    else p.prepLastAgent
  let step :=
    if 1 < p.processedMessages.length then
      (p.resumeLastAgent, p.resumeLastMessage, false)
    else
      (lastAgent0, p.processedMessages.headD message, true)
  match step.1 with
  | some a => .ok (a, step.2)
  | none =>
    match p.agents.find? (fun a => a == "Info_Agent") with
    | some a => .ok (a, step.2)
    | none => .error "No agent available to start the conversation"

/-- C1: the effective round bound of every chat run equals
min(requested, hard ceiling).  The endpoint path obeys it with ceiling 6;
`chat_service.run_chat` instead computes `max(requested, MAX_CHAT_ROUNDS)`,
so a request of 1000 rounds is handed 1000 to the engine, not 6. -/
theorem run_chat_round_bound_bug :
    run_chat_effective_max_rounds 1000 10 = 1000 ∧
    (∀ mr : Int,
      run_group_chat_effective_max_rounds (chat_endpoint_effective_max_rounds mr) =
        min mr 6) ∧
    min (1000 : Int) 6 < run_chat_effective_max_rounds 1000 10 := by
  refine ⟨rfl, ?_, by decide⟩
  intro mr
  simp only [run_group_chat_effective_max_rounds, chat_endpoint_effective_max_rounds]
  omega

/- ### Helper lemmas about the string embedding -/

theorem bool_eq_of_iff {a b : Bool} (h : a = true ↔ b = true) : a = b := by
  cases a <;> cases b <;> simp_all

theorem isPrefixB_iff (n : List Char) : ∀ l, isPrefixB n l = true ↔ ∃ v, l = n ++ v := by
  induction n with
  | nil => intro l; simp [isPrefixB]
  | cons a as ih =>
    intro l
    cases l with
    | nil => simp [isPrefixB]
    | cons b bs =>
      simp only [isPrefixB, Bool.and_eq_true, beq_iff_eq, ih, List.cons_append]
      constructor
      · rintro ⟨rfl, v, rfl⟩; exact ⟨v, rfl⟩
      · rintro ⟨v, h⟩
        injection h with h1 h2
        exact ⟨h1.symm, v, h2⟩

theorem isSubB_iff (n : List Char) : ∀ l, isSubB n l = true ↔ SubL n l := by
  intro l
  induction l with
  | nil =>
    simp only [isSubB, List.isEmpty_iff, SubL]
    constructor
    · rintro rfl; exact ⟨[], [], rfl⟩
    · rintro ⟨u, v, h⟩
      rcases List.append_eq_nil.mp h.symm with ⟨h1, h2⟩
      exact (List.append_eq_nil.mp h1).2
  | cons c rest ih =>
    simp only [isSubB, Bool.or_eq_true, isPrefixB_iff, ih, SubL]
    constructor
    · rintro (⟨v, h⟩ | ⟨u, v, h⟩)
      · exact ⟨[], v, by simpa using h⟩
      · exact ⟨c :: u, v, by rw [h]; rfl⟩
    · rintro ⟨u, v, h⟩
      cases u with
      | nil => exact Or.inl ⟨v, by simpa using h⟩
      | cons c' u' =>
        injection h with h1 h2
        exact Or.inr ⟨u', v, h2⟩

theorem isSufB_iff (n l : List Char) : isSufB n l = true ↔ SufL n l := by
  simp only [isSufB, isPrefixB_iff, SufL]
  constructor
  · rintro ⟨v, h⟩
    refine ⟨v.reverse, ?_⟩
    have := congrArg List.reverse h
    simpa using this
  · rintro ⟨u, rfl⟩
    exact ⟨u.reverse, by simp⟩

theorem SubL_reverse (n l : List Char) : SubL n.reverse l.reverse ↔ SubL n l := by
  constructor
  · rintro ⟨u, v, h⟩
    have := congrArg List.reverse h
    simp only [List.reverse_reverse, List.reverse_append] at this
    exact ⟨v.reverse, u.reverse, by simpa [List.append_assoc] using this⟩
  · rintro ⟨u, v, rfl⟩
    exact ⟨v.reverse, u.reverse, by simp⟩

theorem pyCharLower_ws {c : Char} (h : pyIsSpace c = true) : pyCharLower c = c := by
  simp only [pyIsSpace, Bool.or_eq_true, beq_iff_eq] at h
  rcases h with ((((rfl | rfl) | rfl) | rfl) | rfl) | rfl <;> decide

theorem pyLower_of_ws {t : List Char} (h : ∀ c ∈ t, pyIsSpace c = true) :
    pyLower t = t := by
  simp only [pyLower]
  rw [List.map_congr_left]
  · exact List.map_id t
  · intro c hc
    exact pyCharLower_ws (h c hc)

theorem pyLower_append (a b : List Char) :
    pyLower (a ++ b) = pyLower a ++ pyLower b := List.map_append _ _ _

theorem rstrip_decomp (s : List Char) :
    ∃ t, s = pyRstrip s ++ t ∧ ∀ c ∈ t, pyIsSpace c = true := by
  refine ⟨(s.reverse.takeWhile pyIsSpace).reverse, ?_, ?_⟩
  · have h := List.takeWhile_append_dropWhile pyIsSpace s.reverse
    have := congrArg List.reverse h
    simp only [List.reverse_append, List.reverse_reverse] at this
    exact this.symm
  · intro c hc
    rw [List.mem_reverse] at hc
    exact List.mem_takeWhile_imp hc

theorem lstrip_decomp (s : List Char) :
    ∃ w, s = w ++ pyLstrip s ∧ ∀ c ∈ w, pyIsSpace c = true := by
  refine ⟨s.takeWhile pyIsSpace, ?_, ?_⟩
  · exact (List.takeWhile_append_dropWhile pyIsSpace s).symm
  · intro c hc
    exact List.mem_takeWhile_imp hc

theorem SubL_ws_left {ch : Char} {n1 w a : List Char}
    (hch : pyIsSpace ch = false) (hw : ∀ c ∈ w, pyIsSpace c = true) :
    SubL (ch :: n1) (w ++ a) ↔ SubL (ch :: n1) a := by
  induction w with
  | nil => simp
  | cons c w ih =>
    have hc : pyIsSpace c = true := hw c (List.mem_cons_self _ _)
    have hw' : ∀ c ∈ w, pyIsSpace c = true := fun x hx => hw x (List.mem_cons_of_mem _ hx)
    rw [List.cons_append]
    constructor
    · rintro ⟨u, v, h⟩
      cases u with
      | nil =>
        simp only [List.nil_append, List.cons_append] at h
        injection h with h1 h2
        rw [h1] at hc
        rw [hch] at hc
        cases hc
      | cons c' u' =>
        simp only [List.cons_append] at h
        injection h with h1 h2
        exact (ih hw').mp ⟨u', v, h2⟩
    · intro h
      obtain ⟨u, v, h⟩ := (ih hw').mpr h
      exact ⟨c :: u, v, by rw [List.cons_append, h]; rfl⟩

theorem SufL_ws_left {ch : Char} {n1 w a : List Char}
    (hch : pyIsSpace ch = false) (hw : ∀ c ∈ w, pyIsSpace c = true) :
    SufL (ch :: n1) (w ++ a) ↔ SufL (ch :: n1) a := by
  induction w with
  | nil => simp
  | cons c w ih =>
    have hc : pyIsSpace c = true := hw c (List.mem_cons_self _ _)
    have hw' : ∀ c ∈ w, pyIsSpace c = true := fun x hx => hw x (List.mem_cons_of_mem _ hx)
    rw [List.cons_append]
    constructor
    · rintro ⟨u, h⟩
      cases u with
      | nil =>
        simp only [List.nil_append] at h
        injection h with h1 h2
        rw [h1] at hc
        rw [hch] at hc
        cases hc
      | cons c' u' =>
        injection h with h1 h2
        exact (ih hw').mp ⟨u', h2⟩
    · intro h
      obtain ⟨u, h⟩ := (ih hw').mpr h
      exact ⟨c :: u, by rw [List.cons_append, h]⟩

theorem SubL_ws_right {cl : Char} {n1 w a : List Char}
    (hcl : pyIsSpace cl = false) (hw : ∀ c ∈ w, pyIsSpace c = true) :
    SubL (n1 ++ [cl]) (a ++ w) ↔ SubL (n1 ++ [cl]) a := by
  have hrev : ∀ c ∈ w.reverse, pyIsSpace c = true := by
    intro c hc; exact hw c (List.mem_reverse.mp hc)
  constructor
  · intro h
    rw [← SubL_reverse] at h
    simp only [List.reverse_append, List.reverse_cons, List.reverse_nil,
      List.nil_append, List.singleton_append] at h
    have h2 := (@SubL_ws_left cl n1.reverse w.reverse a.reverse hcl hrev).mp h
    rw [← List.reverse_reverse a] at h2 ⊢
    rw [← SubL_reverse]
    simpa [List.reverse_append] using h2
  · rintro ⟨u, v, h⟩
    exact ⟨u, v ++ w, by rw [h]; simp [List.append_assoc]⟩

theorem isSubB_append_ws {n a w n1 : List Char} {cl : Char}
    (hn : n = n1 ++ [cl]) (hcl : pyIsSpace cl = false)
    (hw : ∀ c ∈ w, pyIsSpace c = true) :
    isSubB n (a ++ w) = isSubB n a := by
  apply bool_eq_of_iff
  rw [isSubB_iff, isSubB_iff, hn]
  exact SubL_ws_right hcl hw

theorem isSubB_ws_append {n w a n1 : List Char} {ch : Char}
    (hn : n = ch :: n1) (hch : pyIsSpace ch = false)
    (hw : ∀ c ∈ w, pyIsSpace c = true) :
    isSubB n (w ++ a) = isSubB n a := by
  apply bool_eq_of_iff
  rw [isSubB_iff, isSubB_iff, hn]
  exact SubL_ws_left hch hw

theorem isSufB_ws_append {n w a n1 : List Char} {ch : Char}
    (hn : n = ch :: n1) (hch : pyIsSpace ch = false)
    (hw : ∀ c ∈ w, pyIsSpace c = true) :
    isSufB n (w ++ a) = isSufB n a := by
  apply bool_eq_of_iff
  rw [isSufB_iff, isSufB_iff, hn]
  exact SufL_ws_left hch hw

/-- C3: both `is_termination_msg` implementations agree, on string contents,
with the formula of the claim: after trimming trailing whitespace the text ends
with "TERMINATE" or "KẾT THÚC", or the lowercased text contains
"hoàn thành" or "completed". -/
theorem termination_predicate_matches_claim :
    ∀ content : List Char,
      ctrl_is_termination_msg ⟨some (.pstr content)⟩ = claim_termination content ∧
      tb_is_termination_msg ⟨some (.pstr content)⟩ = claim_termination content := by
  intro content
  obtain ⟨t, hst, htw⟩ := rstrip_decomp content
  obtain ⟨w, hrw, hww⟩ := lstrip_decomp (pyRstrip content)
  have hrw2 : pyRstrip content = w ++ pyStrip content := hrw
  have hL1 : pyLower content = pyLower (pyRstrip content) ++ t := by
    conv_lhs => rw [hst]
    rw [pyLower_append, pyLower_of_ws htw]
  have hL2 : pyLower (pyRstrip content) = w ++ pyLower (pyStrip content) := by
    conv_lhs => rw [hrw2]
    rw [pyLower_append, pyLower_of_ws hww]
  have hctrl : ctrl_is_termination_msg ⟨some (.pstr content)⟩ =
      (isSufB "TERMINATE".toList (pyRstrip content) ||
       isSufB "KẾT THÚC".toList (pyRstrip content) ||
       isSubB "hoàn thành".toList (pyLower (pyRstrip content)) ||
       isSubB "completed".toList (pyLower (pyRstrip content))) := rfl
  have htb : tb_is_termination_msg ⟨some (.pstr content)⟩ =
      (isSufB "TERMINATE".toList (pyStrip content) ||
       isSufB "KẾT THÚC".toList (pyStrip content) ||
       isSubB "hoàn thành".toList (pyLower (pyStrip content)) ||
       isSubB "completed".toList (pyLower (pyStrip content))) := rfl
  have hclaim : claim_termination content =
      (isSufB "TERMINATE".toList (pyRstrip content) ||
       isSufB "KẾT THÚC".toList (pyRstrip content) ||
       isSubB "hoàn thành".toList (pyLower content) ||
       isSubB "completed".toList (pyLower content)) := rfl
  have e1 : isSubB "hoàn thành".toList (pyLower content) =
      isSubB "hoàn thành".toList (pyLower (pyRstrip content)) := by
    rw [hL1]
    exact @isSubB_append_ws "hoàn thành".toList (pyLower (pyRstrip content)) t
      "hoàn thàn".toList 'h' (by decide) (by decide) htw
  have e2 : isSubB "completed".toList (pyLower content) =
      isSubB "completed".toList (pyLower (pyRstrip content)) := by
    rw [hL1]
    exact @isSubB_append_ws "completed".toList (pyLower (pyRstrip content)) t
      "complete".toList 'd' (by decide) (by decide) htw
  have e3 : isSufB "TERMINATE".toList (pyRstrip content) =
      isSufB "TERMINATE".toList (pyStrip content) := by
    rw [hrw2]
    exact @isSufB_ws_append "TERMINATE".toList w (pyStrip content)
      "ERMINATE".toList 'T' (by decide) (by decide) hww
  have e4 : isSufB "KẾT THÚC".toList (pyRstrip content) =
      isSufB "KẾT THÚC".toList (pyStrip content) := by
    rw [hrw2]
    exact @isSufB_ws_append "KẾT THÚC".toList w (pyStrip content)
      "ẾT THÚC".toList 'K' (by decide) (by decide) hww
  have e5 : isSubB "hoàn thành".toList (pyLower (pyRstrip content)) =
      isSubB "hoàn thành".toList (pyLower (pyStrip content)) := by
    rw [hL2]
    exact @isSubB_ws_append "hoàn thành".toList w (pyLower (pyStrip content))
      "oàn thành".toList 'h' (by decide) (by decide) hww
  have e6 : isSubB "completed".toList (pyLower (pyRstrip content)) =
      isSubB "completed".toList (pyLower (pyStrip content)) := by
    rw [hL2]
    exact @isSubB_ws_append "completed".toList w (pyLower (pyStrip content))
      "ompleted".toList 'c' (by decide) (by decide) hww
  constructor
  · rw [hctrl, hclaim, e1, e2]
  · rw [htb, hclaim, e1, e2, e5, e6, e3, e4]

/-- C10: a message whose `content` is missing or not a string is never
reported terminal by either `is_termination_msg` implementation. -/
theorem nonstring_content_never_terminates :
    ∀ m : PyMsg, (∀ s, m.content ≠ some (.pstr s)) →
      ctrl_is_termination_msg m = false ∧ tb_is_termination_msg m = false := by
  rintro ⟨content⟩ h
  cases content with
  | none => exact ⟨by decide, by decide⟩
  | some c =>
    cases c with
    | pstr s => exact absurd rfl (h s)
    | pnone => exact ⟨rfl, rfl⟩
    | pfalsy r => exact ⟨rfl, rfl⟩
    | ptruthy r => exact ⟨rfl, rfl⟩

theorem nonstring_content_never_terminates_witness :
    ctrl_is_termination_msg ⟨none⟩ = false ∧ tb_is_termination_msg ⟨none⟩ = false :=
  nonstring_content_never_terminates ⟨none⟩ (fun _ h => Option.noConfusion h)

theorem dropWhileLengthLe (p : Char → Bool) :
    ∀ l : List Char, (l.dropWhile p).length ≤ l.length := by
  intro l
  induction l with
  | nil => simp
  | cons c rest ih =>
    rw [List.dropWhile_cons]
    by_cases h : p c
    · rw [if_pos h]
      exact le_trans ih (Nat.le_succ _)
    · rw [if_neg h]

theorem pyStrip_length_le (l : List Char) : (pyStrip l).length ≤ l.length := by
  have h1 : (pyLstrip (pyRstrip l)).length ≤ (pyRstrip l).length :=
    dropWhileLengthLe _ _
  have h2 : (pyRstrip l).length ≤ l.length := by
    simp only [pyRstrip, List.length_reverse]
    exact le_trans (dropWhileLengthLe _ _) (le_of_eq (List.length_reverse _))
  exact le_trans h1 h2

/-- C4 (amended): the extractor always returns a non-empty string — either
the fixed localized fallback (exactly when the cleaned text is shorter than
5 characters) or the cleaned text itself, which then has length ≥ 5.  The
cleaned text is the chosen text after one left-to-right removal pass per
sentinel, which is not always sentinel-free (see the counterexample). -/
theorem extractor_nonempty_with_fallback :
    ∀ r : EngineResult,
      0 < (extract_final_result r).length ∧
      (extract_final_result r = fallback_message ∨
        (extract_final_result r = cleaned_text r ∧
          5 ≤ (extract_final_result r).length)) := by
  intro r
  simp only [extract_final_result]
  by_cases h : (pyStrip (cleaned_text r)).length < 5
  · rw [if_pos h]
    exact ⟨by decide, Or.inl rfl⟩
  · rw [if_neg h]
    push_neg at h
    have hle : 5 ≤ (cleaned_text r).length := le_trans h (pyStrip_length_le _)
    exact ⟨lt_of_lt_of_le (by norm_num) hle, Or.inr ⟨rfl, hle⟩⟩

/-- C4 (counterexample): on the engine result "TERMITERMINATENATE" the
single `replace` pass splices the two fragments into a fresh "TERMINATE",
so the extractor output still contains the sentinel. -/
theorem extractor_sentinel_can_survive :
    extract_final_result (.str "TERMITERMINATENATE".toList) = "TERMINATE".toList ∧
    isSubB "TERMINATE".toList
      (extract_final_result (.str "TERMITERMINATENATE".toList)) = true := by
  decide

/-- C5 (counterexample): an object whose `summary` is "X TERMINATE" does not
yield "X": the cleaned text "X" is below the 5-character minimum, so the
extractor substitutes the localized fallback instead. -/
theorem extractor_short_summary_falls_back :
    extract_final_result (.obj (some "X TERMINATE".toList) none []) = fallback_message ∧
    (fallback_message == "X".toList) = false := by
  decide

/-- C5 (amended): of the three example shapes, the plain string and the
history-object yield the cleaned text, while the summary "X TERMINATE"
yields the localized fallback because the cleaned text "X" is shorter than
the 5-character minimum. -/
theorem extractor_three_shapes :
    extract_final_result (.str "Answer. TERMINATE".toList) = "Answer.".toList ∧
    extract_final_result (.obj (some "X TERMINATE".toList) none []) = fallback_message ∧
    extract_final_result
      (.obj none (some [.dict (some (.pstr "final answer TERMINATE".toList))]) []) =
      "final answer".toList := by
  decide

/-- C6 (counterexample): a request whose `message` is the empty string
passes `ChatRequest` validation and the endpoint hands the empty message
straight to the engine call — it is not rejected at the boundary. -/
theorem empty_message_not_rejected :
    validate_chat_request_message (some (.jstr [])) = .ok [] ∧
    chat_endpoint_engine_call [] 8 = ([], 6) :=
  ⟨rfl, rfl⟩

/-- C6 (amended): the `message` field is required (a request without it, or
with a non-string value, fails validation), but no emptiness check exists:
any string — including an empty or whitespace-only one — is accepted and the
chat pipeline invokes the engine with it. -/
theorem message_required_but_emptiness_unchecked :
    validate_chat_request_message none = .error () ∧
    (∀ n : Int, validate_chat_request_message (some (.jnum n)) = .error ()) ∧
    (∀ s : List Char, (∀ c ∈ s, pyIsSpace c = true) →
      validate_chat_request_message (some (.jstr s)) = .ok s ∧
      chat_endpoint_engine_call s 8 = (s, 6)) := by
  exact ⟨rfl, fun _ => rfl, fun s _ => ⟨rfl, rfl⟩⟩

theorem message_required_but_emptiness_unchecked_witness :
    validate_chat_request_message (some (.jstr "   ".toList)) = .ok "   ".toList ∧
    chat_endpoint_engine_call "   ".toList 8 = ("   ".toList, 6) :=
  message_required_but_emptiness_unchecked.2.2 "   ".toList (by decide)

/-- C7 (counterexample): an agent whose structured update entrypoint raises
a non-`TypeError` exception on the plain-text call makes
`_set_system_message_text` itself raise, even though every other update
mechanism of the agent exists and works. -/
theorem broken_entrypoint_raises :
    set_system_message_text ⟨true, .otherErr, .ok, true, true, true, true⟩ =
      .error () :=
  rfl

/-- C7 (amended): `_set_system_message_text` tries, in priority order, the
structured entrypoint, the wrapped update object, the internal field, the
nested content field, and log-and-skip; it never raises provided the
plain-text entrypoint call does not raise a non-`TypeError` exception
(only `TypeError` is caught there).  The inline chain in
`team_builder.create_team` catches everything and always lands on one of
its three mechanisms, so a broken update path cannot abort team building. -/
theorem set_system_message_priority_and_safety :
    (∀ a : AgentObj, (a.hasUpdateEntry = true → a.callWithText ≠ .otherErr) →
      ∃ m, set_system_message_text a = .ok m) ∧
    (∀ a : AgentObj, a.hasUpdateEntry = true → a.callWithText = .ok →
      set_system_message_text a = .ok .entryText) ∧
    (∀ a : AgentObj, a.hasUpdateEntry = true → a.callWithText = .typeErr →
      a.callWithWrapped = .ok → set_system_message_text a = .ok .entryWrapped) ∧
    (∀ a : AgentObj,
      (a.hasUpdateEntry = false ∨
        (a.callWithText = .typeErr ∧ a.callWithWrapped ≠ .ok)) →
      set_system_message_text a = .ok (set_system_message_fallback a)) ∧
    (∀ (he : Bool) (t w : CallOutcome),
      team_builder_apply_update he t w = .entryText ∨
      team_builder_apply_update he t w = .entryWrapped ∨
      team_builder_apply_update he t w = .internalField) := by
  refine ⟨?_, ?_, ?_, ?_, ?_⟩
  · rintro ⟨he, ct, cw, hif, ifo, shc, cso⟩ h
    cases he
    · exact ⟨set_system_message_fallback _, rfl⟩
    · cases ct with
      | ok => exact ⟨.entryText, rfl⟩
      | typeErr =>
        cases cw with
        | ok => exact ⟨.entryWrapped, rfl⟩
        | typeErr => exact ⟨set_system_message_fallback _, rfl⟩
        | otherErr => exact ⟨set_system_message_fallback _, rfl⟩
      | otherErr => exact absurd rfl (h rfl)
  · rintro ⟨he, ct, cw, hif, ifo, shc, cso⟩ h1 h2
    subst h1; subst h2; rfl
  · rintro ⟨he, ct, cw, hif, ifo, shc, cso⟩ h1 h2 h3
    subst h1; subst h2; subst h3; rfl
  · rintro ⟨he, ct, cw, hif, ifo, shc, cso⟩ h
    rcases h with h | ⟨h1, h2⟩
    · subst h; rfl
    · subst h1
      cases cw with
      | ok => exact absurd rfl h2
      | typeErr => cases he <;> rfl
      | otherErr => cases he <;> rfl
  · intro he t w
    cases he <;> cases t <;> cases w <;> simp [team_builder_apply_update]

theorem set_system_message_priority_and_safety_witness :
    ∃ m, set_system_message_text ⟨true, .typeErr, .otherErr, true, true, true, true⟩ =
      .ok m :=
  set_system_message_priority_and_safety.1
    ⟨true, .typeErr, .otherErr, true, true, true, true⟩
    (fun _ h => CallOutcome.noConfusion h)

/- ### Helper lemmas for the router proof -/

theorem foldl_max_decomp :
    ∀ (xs : List (String × Nat)) (b : String × Nat),
      ∃ l1 l2,
        b :: xs = l1 ++ (xs.foldl (fun acc y => if acc.2 < y.2 then y else acc) b) :: l2 ∧
        (∀ y ∈ l1, y.2 < (xs.foldl (fun acc y => if acc.2 < y.2 then y else acc) b).2) ∧
        (∀ y ∈ l2, y.2 ≤ (xs.foldl (fun acc y => if acc.2 < y.2 then y else acc) b).2) := by
  intro xs
  induction xs with
  | nil =>
    intro b
    exact ⟨[], [], rfl, by simp, by simp⟩
  | cons y ys ih =>
    intro b
    rw [List.foldl_cons]
    by_cases h : b.2 < y.2
    · rw [if_pos h]
      obtain ⟨l1, l2, hdec, hlt, hle⟩ := ih y
      have hy : y.2 ≤ (ys.foldl (fun acc y => if acc.2 < y.2 then y else acc) y).2 := by
        cases l1 with
        | nil =>
          rw [List.nil_append] at hdec
          injection hdec with h1 _
          exact le_of_eq (congrArg Prod.snd h1)
        | cons z l1' =>
          rw [List.cons_append] at hdec
          injection hdec with h1 _
          exact le_of_lt (hlt y (h1 ▸ List.mem_cons_self _ _))
      refine ⟨b :: l1, l2, ?_, ?_, hle⟩
      · rw [List.cons_append, ← hdec]
      · intro z hz
        rcases List.mem_cons.mp hz with rfl | hz'
        · exact lt_of_lt_of_le h hy
        · exact hlt z hz'
    · rw [if_neg h]
      push_neg at h
      obtain ⟨l1, l2, hdec, hlt, hle⟩ := ih b
      cases l1 with
      | nil =>
        rw [List.nil_append] at hdec
        injection hdec with h1 h2
        refine ⟨[], y :: ys, ?_, by simp, ?_⟩
        · rw [List.nil_append, ← h1]
        · intro z hz
          rcases List.mem_cons.mp hz with rfl | hz'
          · exact le_trans h (le_of_eq (congrArg Prod.snd h1))
          · exact hle z (h2 ▸ hz')
      | cons z l1' =>
        rw [List.cons_append] at hdec
        injection hdec with h1 h2
        have hb : b.2 < (ys.foldl (fun acc y => if acc.2 < y.2 then y else acc) b).2 :=
          hlt b (h1 ▸ List.mem_cons_self _ _)
        refine ⟨b :: y :: l1', l2, ?_, ?_, hle⟩
        · rw [List.cons_append, List.cons_append, ← h2]
        · intro u hu
          rcases List.mem_cons.mp hu with rfl | hu'
          · exact hb
          · rcases List.mem_cons.mp hu' with rfl | hu''
            · exact lt_of_le_of_lt h hb
            · exact hlt u (List.mem_cons_of_mem z hu'')

theorem map_eq_append_decomp {α β : Type} (f : α → β) :
    ∀ (s : List β) (l : List α) (t : List β), l.map f = s ++ t →
      ∃ l1 l2, l = l1 ++ l2 ∧ l1.map f = s ∧ l2.map f = t := by
  intro s
  induction s with
  | nil =>
    intro l t h
    exact ⟨[], l, rfl, rfl, by simpa using h⟩
  | cons x s ih =>
    intro l t h
    cases l with
    | nil => simp at h
    | cons a l' =>
      rw [List.map_cons, List.cons_append] at h
      injection h with h1 h2
      obtain ⟨l1, l2, hl, hm1, hm2⟩ := ih l' t h2
      exact ⟨a :: l1, l2, by rw [hl, List.cons_append],
        by rw [List.map_cons, hm1, h1], hm2⟩

theorem map_eq_cons_decomp {α β : Type} (f : α → β) (l : List α) (x : β)
    (t : List β) (h : l.map f = x :: t) :
    ∃ a l', l = a :: l' ∧ f a = x ∧ l'.map f = t := by
  cases l with
  | nil => simp at h
  | cons a l' =>
    rw [List.map_cons] at h
    injection h with h1 h2
    exact ⟨a, l', rfl, h1, h2⟩

theorem lookup_keywords : ∀ p ∈ keywordsMap, lookupKw p.1 = some p.2 := by decide

theorem keywords_nodup : ∀ p ∈ keywordsMap, p.2.Nodup := by decide

theorem agentScores_default_eq (msg : List Char) :
    agentScores (pyLower msg) defaultAgents =
      routedRoster.map (fun e => (e, expertScore e msg)) := rfl

theorem determine_best_agent_spec (msg : List Char) (agents roster : List String)
    (hmap : agentScores (pyLower msg) agents =
      roster.map (fun e => (e, expertScore e msg)))
    (hne : roster ≠ [])
    (hfind : ∀ e ∈ roster, agents.find? (fun a => a == e) = some e) :
    (determine_best_agent msg agents = none ↔
      ∀ e ∈ roster, expertScore e msg = 0) ∧
    (∀ e, determine_best_agent msg agents = some e →
      0 < expertScore e msg ∧
      ∃ r1 r2, roster = r1 ++ e :: r2 ∧
        (∀ x ∈ r1, expertScore x msg < expertScore e msg) ∧
        (∀ x ∈ r2, expertScore x msg ≤ expertScore e msg)) := by
  obtain ⟨r0, rs, rfl⟩ : ∃ r0 rs, roster = r0 :: rs := by
    cases roster with
    | nil => exact absurd rfl hne
    | cons r0 rs => exact ⟨r0, rs, rfl⟩
  have hmap' : agentScores (pyLower msg) agents =
      (fun e => (e, expertScore e msg)) r0 ::
        rs.map (fun e => (e, expertScore e msg)) := by
    rw [hmap, List.map_cons]
  have hmx : maxByFirst (agentScores (pyLower msg) agents) =
      some ((rs.map (fun e => (e, expertScore e msg))).foldl
        (fun acc y => if acc.2 < y.2 then y else acc)
        ((fun e => (e, expertScore e msg)) r0)) := by
    rw [hmap']
    rfl
  obtain ⟨l1, l2, hdec, hlt, hle⟩ :=
    foldl_max_decomp (rs.map (fun e => (e, expertScore e msg)))
      ((fun e => (e, expertScore e msg)) r0)
  have hdec' : (r0 :: rs).map (fun e => (e, expertScore e msg)) =
      l1 ++ ((rs.map (fun e => (e, expertScore e msg))).foldl
        (fun acc y => if acc.2 < y.2 then y else acc)
        ((fun e => (e, expertScore e msg)) r0)) :: l2 := by
    rw [List.map_cons]
    exact hdec
  obtain ⟨r1, rr, hsplit, hm1, hm2⟩ :=
    map_eq_append_decomp (fun e => (e, expertScore e msg)) l1 (r0 :: rs) _ hdec'
  obtain ⟨em, r2, hrr, hfm, hmr2⟩ :=
    map_eq_cons_decomp (fun e => (e, expertScore e msg)) rr _ l2 hm2
  have hroster : r0 :: rs = r1 ++ em :: r2 := by rw [hsplit, hrr]
  have hmem : em ∈ r0 :: rs := by
    rw [hroster]
    exact List.mem_append.mpr (Or.inr (List.mem_cons_self _ _))
  have hr1 : ∀ x ∈ r1, expertScore x msg <
      (((rs.map (fun e => (e, expertScore e msg))).foldl
        (fun acc y => if acc.2 < y.2 then y else acc)
        ((fun e => (e, expertScore e msg)) r0))).2 := by
    intro x hx
    have hx' : (x, expertScore x msg) ∈ l1 := by
      rw [← hm1]
      exact List.mem_map_of_mem _ hx
    exact hlt _ hx'
  have hr2 : ∀ x ∈ r2, expertScore x msg ≤
      (((rs.map (fun e => (e, expertScore e msg))).foldl
        (fun acc y => if acc.2 < y.2 then y else acc)
        ((fun e => (e, expertScore e msg)) r0))).2 := by
    intro x hx
    have hx' : (x, expertScore x msg) ∈ l2 := by
      rw [← hmr2]
      exact List.mem_map_of_mem _ hx
    exact hle _ hx'
  have hm2e : (((rs.map (fun e => (e, expertScore e msg))).foldl
      (fun acc y => if acc.2 < y.2 then y else acc)
      ((fun e => (e, expertScore e msg)) r0))).2 = expertScore em msg := by
    rw [← hfm]
  have hda : determine_best_agent msg agents =
      if 0 < expertScore em msg then agents.find? (fun a => a == em) else none := by
    simp only [determine_best_agent]
    rw [hmx, ← hfm]
  have hall : ∀ x ∈ r0 :: rs, expertScore x msg ≤ expertScore em msg := by
    intro x hx
    rw [hroster] at hx
    rcases List.mem_append.mp hx with hx1 | hx2
    · exact le_of_lt (hm2e ▸ hr1 x hx1)
    · rcases List.mem_cons.mp hx2 with rfl | hx3
      · exact le_refl _
      · exact hm2e ▸ hr2 x hx3
  by_cases hpos : 0 < expertScore em msg
  · have hda2 : determine_best_agent msg agents = some em := by
      rw [hda, if_pos hpos, hfind em hmem]
    constructor
    · rw [hda2]
      constructor
      · intro h
        exact Option.noConfusion h
      · intro hz
        exact absurd (hz em hmem ▸ hpos) (lt_irrefl 0)
    · intro e he
      rw [hda2] at he
      injection he with he'
      subst he'
      refine ⟨hpos, r1, r2, hroster, ?_, ?_⟩
      · intro x hx
        exact hm2e ▸ hr1 x hx
      · intro x hx
        exact hm2e ▸ hr2 x hx
  · have hz : ∀ x ∈ r0 :: rs, expertScore x msg = 0 := by
      intro x hx
      have h1 := hall x hx
      have h2 : expertScore em msg = 0 := Nat.eq_zero_of_not_pos hpos
      omega
    have hda2 : determine_best_agent msg agents = none := by
      rw [hda, if_neg hpos]
    constructor
    · rw [hda2]
      exact ⟨fun _ => hz, fun _ => rfl⟩
    · intro e he
      rw [hda2] at he
      exact Option.noConfusion he

/-- C2: on the default roster, `_determine_best_agent` returns no selection
exactly when every keyword score is zero, and otherwise selects the first
expert (in roster declaration order) attaining the strictly maximal nonzero
score; on the example message the English expert scores 2 (keywords
"english" and "grammar"), every other expert scores 0, and English is
selected. -/
theorem router_selects_first_strict_max :
    (∀ msg : List Char,
      (determine_best_agent msg defaultAgents = none ↔
        ∀ e ∈ routedRoster, expertScore e msg = 0) ∧
      (∀ e, determine_best_agent msg defaultAgents = some e →
        0 < expertScore e msg ∧
        ∃ r1 r2, routedRoster = r1 ++ e :: r2 ∧
          (∀ x ∈ r1, expertScore x msg < expertScore e msg) ∧
          (∀ x ∈ r2, expertScore x msg ≤ expertScore e msg))) ∧
    determine_best_agent exampleMessage defaultAgents = some "English_Expert" ∧
    2 ≤ expertScore "English_Expert" exampleMessage ∧
    (∀ e ∈ routedRoster, e ≠ "English_Expert" →
      expertScore e exampleMessage = 0) := by
  refine ⟨?_, by decide, by decide, by decide⟩
  intro msg
  exact determine_best_agent_spec msg defaultAgents routedRoster
    (agentScores_default_eq msg) (by decide) (by decide)

theorem router_selects_first_strict_max_witness :
    0 < expertScore "English_Expert" exampleMessage :=
  ((router_selects_first_strict_max.1 exampleMessage).2 "English_Expert"
    router_selects_first_strict_max.2.1).1

theorem countP_eq_card_filter_toFinset (l : List (List Char)) (hl : l.Nodup)
    (p : List Char → Bool) :
    l.countP p = (l.toFinset.filter (fun k => p k = true)).card := by
  have h1 : l.countP p = (l.filter p).length := List.countP_eq_length_filter _ _
  have h2 : (l.filter p).Nodup := hl.filter p
  have h3 : (l.filter p).toFinset.card = (l.filter p).length :=
    List.toFinset_card_of_nodup h2
  have h4 : (l.filter p).toFinset = l.toFinset.filter (fun k => p k = true) := by
    ext k
    simp [List.mem_filter]
  rw [h1, ← h3, h4]

/-- C9: an expert's routing score counts the distinct keywords of its
profile that occur in the lower-cased message — each keyword contributes at
most 1 however often it occurs; in particular a message repeating one math
keyword three times scores exactly 1 for the math expert. -/
theorem routing_score_counts_distinct :
    (∀ pair ∈ keywordsMap, ∀ msg : List Char,
      expertScore pair.1 msg =
        (pair.2.toFinset.filter
          (fun k => isSubB k (pyLower msg) = true)).card) ∧
    expertScore "Math_Expert" "math math math".toList = 1 := by
  constructor
  · intro pair hmem msg
    have hl : lookupKw pair.1 = some pair.2 := lookup_keywords pair hmem
    have hnd : pair.2.Nodup := keywords_nodup pair hmem
    simp only [expertScore, hl, Option.getD_some, scoreKw]
    exact countP_eq_card_filter_toFinset _ hnd _
  · decide

theorem routing_score_counts_distinct_witness :
    expertScore "Math_Expert" "math math math".toList =
      (mathKeywords.toFinset.filter
        (fun k => isSubB k (pyLower "math math math".toList) = true)).card :=
  routing_score_counts_distinct.1 ("Math_Expert", mathKeywords) (by decide)
    "math math math".toList

/-- C8: when the prepared history has more than one message the run resumes
— the starting speaker and last message come from the engine manager's
bookkeeping (independently of the keyword router) and `clear_history` is
false; when the history has at most one message and the router picks an
expert, that expert starts the chat and `clear_history` is true. -/
theorem resume_skips_routing_first_turn_routes :
    ∀ (message : List Char) (p : PreparedGroupChat),
      (1 < p.processedMessages.length →
        run_group_chat_setup message p =
          (match p.resumeLastAgent.or
              (p.agents.find? (fun a => a == "Info_Agent")) with
           | some a => .ok (a, p.resumeLastMessage, false)
           | none => .error "No agent available to start the conversation")) ∧
      (p.processedMessages.length ≤ 1 →
        ∀ e, determine_best_agent message p.agents = some e →
          run_group_chat_setup message p =
            .ok (e, p.processedMessages.headD message, true)) := by
  intro message p
  constructor
  · intro h
    simp only [run_group_chat_setup]
    rw [if_pos h]
    cases hra : p.resumeLastAgent with
    | some a => simp [Option.or]
    | none =>
      cases hfd : p.agents.find? (fun a => a == "Info_Agent") with
      | some a => simp [Option.or]
      | none => simp [Option.or]
  · intro h e he
    have hnot : ¬1 < p.processedMessages.length := by omega
    simp only [run_group_chat_setup, he]
    rw [if_neg hnot]
    simp [Option.isSome, h]

theorem resume_skips_routing_first_turn_routes_witness :
    run_group_chat_setup []
      ⟨["Info_Agent"], ["a".toList, "b".toList], none, some "Math_Expert",
        "b".toList⟩ =
      .ok ("Math_Expert", "b".toList, false) :=
  (resume_skips_routing_first_turn_routes []
    ⟨["Info_Agent"], ["a".toList, "b".toList], none, some "Math_Expert",
      "b".toList⟩).1 (by decide)
